import Mathlib

/-!
Shallow embedding of the PTY session manager and file-system helpers of
`src-tauri/src/commands/pty.rs` and `src-tauri/src/commands/fs.rs`.

Machine-level effects are made explicit:
* the Session Registry (`HashMap<String, PtySession>` behind a mutex) is an
  association list threaded through every operation as explicit state;
* fallible syscalls (PTY allocation, child launch, handle cloning, write,
  flush, resize) are oracles: a `Bool` (or record of `Bool`s) saying whether
  the syscall succeeds, since the embedding cannot perform real I/O;
* the output-pump thread is a function from the finite list of read results
  it observes to the trace of actions it performs;
* the lock structure of each caller-invoked operation is additionally
  transcribed as an explicit action trace, used to settle the locking claim.
-/

/-- Model of the `PtySession` struct: the PTY pair and the shared writer are
opaque OS resources, represented by numeric handles.  Their values never
influence control flow in the source, only their presence in the registry. -/
structure PtySession where
  pairHandle : Nat
  writerHandle : Nat
deriving DecidableEq, Repr

/-- Model of the `sessions` map (`HashMap<String, PtySession>`) as an
association list; only the key-to-value mapping matters. -/
abbrev Registry := List (String × PtySession)

/-- Model of `HashMap::get`: the value at the first matching key, if any. -/
def Registry.get (st : Registry) (ptyId : String) : Option PtySession :=
  st.lookup ptyId

/-- Model of `HashMap::remove` (value-level effect on the mapping): drop every
entry with the given key.  Absent keys are a no-op, as in the source. -/
def Registry.remove (st : Registry) (ptyId : String) : Registry :=
  st.filter (fun p => p.1 != ptyId)

/-- Model of `HashMap::insert`: the new binding replaces any previous binding
of the same key. -/
def Registry.insert (st : Registry) (ptyId : String) (s : PtySession) : Registry :=
  (ptyId, s) :: Registry.remove st ptyId

/-- Model of Rust `str::split_whitespace` accumulator loop over the characters
of the string: whitespace separates tokens and never appears in one, and no
empty token is produced.  `acc` holds the current token reversed. -/
def splitWhitespaceAux : List Char → List Char → List String
  | [], [] => []
  | [], acc => [String.mk acc.reverse]
  | c :: rest, acc =>
    if c.isWhitespace then
      match acc with
      | [] => splitWhitespaceAux rest []
      | _ :: _ => String.mk acc.reverse :: splitWhitespaceAux rest []
    else splitWhitespaceAux rest (c :: acc)

/-- Model of `cmd_str.split_whitespace().collect::<Vec<_>>()`. -/
def split_whitespace (s : String) : List String :=
  splitWhitespaceAux s.data []

/-- Model of `portable_pty::CommandBuilder` as far as the embedding needs it:
the executable and its arguments.  The working-directory and environment
configuration (`cmd.cwd`, `cmd.env`) acts only on the spawned child process
and is irrelevant to every registry-level claim, so it is not tracked. -/
structure CommandBuilder where
  program : String
  args : List String
deriving DecidableEq, Repr

/-- Model of the command-resolution block of `spawn_pty` (lines 59-73): a
given command string is split on whitespace, the first token is the program
and the rest are arguments, an empty token list is the error
`"Empty command"`; with no command, the `SHELL` environment variable (modeled
as an explicit `Option String` input) or the fixed fallback `"/bin/zsh"`. -/
def resolveCommand (command : Option String) (shellVar : Option String) :
    Except String CommandBuilder :=
  match command with
  | some cmdStr =>
    match split_whitespace cmdStr with
    | [] => Except.error "Empty command"
    | p :: rest => Except.ok ⟨p, rest⟩
  | none => Except.ok ⟨shellVar.getD "/bin/zsh", []⟩

/-- Oracle for the fallible steps of `spawn_pty` together with the
environment it reads: whether each syscall succeeds, the `SHELL` variable,
and the fresh UUID and session resources produced on success. -/
structure SpawnWorld where
  openptyOk : Bool
  spawnCommandOk : Bool
  cloneReaderOk : Bool
  takeWriterOk : Bool
  shellVar : Option String
  freshId : String
  freshSession : PtySession
deriving DecidableEq, Repr

/-- Model of `spawn_pty` (lines 40-139) at the level of its result and its
effect on the registry.  The order of the fallible steps follows the source:
`openpty`, command resolution, `spawn_command`, `try_clone_reader`,
`take_writer`, and only then the insertion into the registry.  Error strings
keep the literal prefix of the source `format!` calls; the formatted cause is
elided. -/
def spawn_pty (w : SpawnWorld) (st : Registry) (cwd : String)
    (command : Option String) : Except String String × Registry :=
  if !w.openptyOk then (Except.error "Failed to open PTY", st)
  else
    match resolveCommand command w.shellVar with
    | Except.error e => (Except.error e, st)
    | Except.ok _cmd =>
      if !w.spawnCommandOk then (Except.error "Failed to spawn command", st)
      else if !w.cloneReaderOk then (Except.error "Failed to clone reader", st)
      else if !w.takeWriterOk then (Except.error "Failed to take writer", st)
      else (Except.ok w.freshId, Registry.insert st w.freshId w.freshSession)

/-- Oracle for the two fallible syscalls of `write_to_pty`. -/
structure WriteSyscalls where
  writeAllOk : Bool
  flushOk : Bool
deriving DecidableEq, Repr

/-- Model of `write_to_pty` (lines 141-155): look the session up, then
`write_all` and `flush` on its writer.  The registry is returned unchanged on
every path, mirroring that the source only ever reads the map here. -/
def write_to_pty (st : Registry) (ptyId : String) (data : String)
    (sys : WriteSyscalls) : Except String Unit × Registry :=
  match Registry.get st ptyId with
  | none => (Except.error ( "PTY session not found: " ++ ptyId), st)
  | some _ =>
    if !sys.writeAllOk then (Except.error "Failed to write to PTY", st)
    else if !sys.flushOk then (Except.error "Failed to flush PTY", st)
    else (Except.ok (), st)

/-- Model of `resize_pty` (lines 157-181): look the session up, then apply
the new geometry; `resizeOk` is the oracle for the `resize` syscall. -/
def resize_pty (st : Registry) (ptyId : String) (rows cols : Nat)
    (resizeOk : Bool) : Except String Unit × Registry :=
  match Registry.get st ptyId with
  | none => (Except.error ( "PTY session not found: " ++ ptyId), st)
  | some _ =>
    if !resizeOk then (Except.error "Failed to resize PTY", st)
    else (Except.ok (), st)

/-- Model of `kill_pty` (lines 183-188): remove the id (no-op when absent)
and return `Ok(())` unconditionally. -/
def kill_pty (st : Registry) (ptyId : String) : Except String Unit × Registry :=
  (Except.ok (), Registry.remove st ptyId)

/-- Unicode replacement character, pushed by the lossy decoder for every
maximal invalid byte sequence. -/
def replacementChar : Char := Char.ofNat 0xFFFD

/-- Continuation-byte test of the UTF-8 validation automaton. -/
def contByte (b : Nat) : Bool := 0x80 ≤ b && b ≤ 0xBF

/-- Lower bound of the second byte of a 3- or 4-byte sequence, as in the
Rust core UTF-8 validator: `0xE0` and `0xF0` restrict it to exclude overlong
encodings. -/
def cont2Lo (b : Nat) : Nat := if b = 0xE0 then 0xA0 else if b = 0xF0 then 0x90 else 0x80

/-- Upper bound of the second byte of a 3- or 4-byte sequence: `0xED`
excludes surrogates and `0xF4` caps the range at `U+10FFFF`. -/
def cont2Hi (b : Nat) : Nat := if b = 0xED then 0x9F else if b = 0xF4 then 0x8F else 0xBF

/-- Number of bytes a valid UTF-8 sequence headed by `b` occupies, or `0`
for a byte that can head no sequence. -/
def utf8Len (b : Nat) : Nat :=
  if b < 0x80 then 1
  else if 0xC2 ≤ b && b ≤ 0xDF then 2
  else if 0xE0 ≤ b && b ≤ 0xEF then 3
  else if 0xF0 ≤ b && b ≤ 0xF4 then 4
  else 0

/-- Decoder action of one byte met in the idle state (no sequence open):
characters to emit now, then the new automaton state — continuation bytes
still needed, accumulated code point, and the admissible range of the next
byte.  A byte that can head no sequence emits one replacement character. -/
def utf8LeadState (b : Nat) : List Char × Nat × Nat × Nat × Nat :=
  if b < 0x80 then ([Char.ofNat b], 0, 0, 0, 0)
  else if utf8Len b = 2 then ([], 1, b % 0x20, 0x80, 0xBF)
  else if utf8Len b = 3 then ([], 2, b % 0x10, cont2Lo b, cont2Hi b)
  else if utf8Len b = 4 then ([], 3, b % 0x08, cont2Lo b, cont2Hi b)
  else ([replacementChar], 0, 0, 0, 0)

/-- The UTF-8 validation automaton run over the byte list: `needed` is the
number of continuation bytes the open sequence still requires (`0` when
idle), `cp` the accumulated code point, `lo`/`hi` the admissible range of
the next continuation byte.  A byte rejected inside a sequence yields one
replacement character for the bytes consumed so far and is itself re-read
as a lead byte; input ending inside a sequence yields a final replacement
character — the substitution-of-maximal-subparts policy of the Rust
standard library's lossy conversion. -/
def utf8DecodeGo : List Nat → Nat → Nat → Nat → Nat → List Char
  | [], needed, _, _, _ => if needed = 0 then [] else [replacementChar]
  | b :: rest, 0, _, _, _ =>
    match utf8LeadState b with
    | (emit, n, cp, lo, hi) => emit ++ utf8DecodeGo rest n cp lo hi
  | b :: rest, n + 1, cp, lo, hi =>
    if lo ≤ b && b ≤ hi then
      if n = 0 then Char.ofNat (cp * 0x40 + b % 0x40) :: utf8DecodeGo rest 0 0 0 0
      else utf8DecodeGo rest n (cp * 0x40 + b % 0x40) 0x80 0xBF
    else
      match utf8LeadState b with
      | (emit, n2, cp2, lo2, hi2) =>
        replacementChar :: (emit ++ utf8DecodeGo rest n2 cp2 lo2 hi2)

/-- Model of `String::from_utf8_lossy` at the level of decoded characters:
valid sequences decode to their scalar value and each maximal invalid
subsequence is replaced by one `U+FFFD`.  The function is total by
construction: every byte list decodes to some character list. -/
def utf8DecodeLossy (bytes : List Nat) : List Char :=
  utf8DecodeGo bytes 0 0 0 0

/-- Model of `String::from_utf8_lossy(&buf[..n]).to_string()` on the bytes
actually read. -/
def from_utf8_lossy (bytes : List Nat) : String :=
  String.mk (utf8DecodeLossy bytes)

/-- One result of `reader.read(&mut buf)` as the pump observes it: `ok bytes`
models `Ok(n)` with the `n` bytes placed in the buffer (so `ok []` is the
zero-length end-of-stream read), `err` models `Err(_)`.  The 4096-byte
buffer only caps the chunk size and plays no role in any claim. -/
inductive ReadResult where
  | ok (bytes : List Nat)
  | err
deriving DecidableEq, Repr

/-- One observable action of the output-pump thread (lines 107-131):
emitting a `pty-output` event, removing the session entry, or emitting the
`pty-exit` event. -/
inductive PumpAction where
  | emitOutput (ptyId : String) (data : String)
  | removeSession (ptyId : String)
  | emitExit (ptyId : String)
deriving DecidableEq, Repr

/-- Model of the pump loop and its cleanup (lines 111-130) as a function of
the finite list of read results the thread observes, in order.  `none` means
the loop is still blocked in `read` after consuming the whole list (the
stream never ended); `some tr` is the full action trace of the thread.  A
non-empty read emits one output event with the lossily decoded chunk and
continues; a zero-length read or an error breaks the loop, after which the
thread removes the session from the registry and then emits the exit
event. -/
def pumpLoop (ptyId : String) : List ReadResult → Option (List PumpAction)
  | [] => none
  | ReadResult.err :: _ =>
    some [PumpAction.removeSession ptyId, PumpAction.emitExit ptyId]
  | ReadResult.ok [] :: _ =>
    some [PumpAction.removeSession ptyId, PumpAction.emitExit ptyId]
  | ReadResult.ok (b :: bs) :: rest =>
    (pumpLoop ptyId rest).map
      (fun tr => PumpAction.emitOutput ptyId (from_utf8_lossy (b :: bs)) :: tr)

/-- Effect of one pump action on the registry: only `removeSession` touches
it (line 129); event emission does not. -/
def applyPumpAction (st : Registry) : PumpAction → Registry
  | PumpAction.removeSession ptyId => Registry.remove st ptyId
  | _ => st

/-- Effect of a whole pump trace on the registry. -/
def applyPumpTrace (st : Registry) (tr : List PumpAction) : Registry :=
  tr.foldl applyPumpAction st

/-- Number of exit emissions in a pump trace. -/
def countExit : List PumpAction → Nat
  | [] => 0
  | PumpAction.emitExit _ :: rest => countExit rest + 1
  | _ :: rest => countExit rest

/-- Reads on which the source loop `break`s: a zero-length read or an
error. -/
def isTerminalRead : ReadResult → Bool
  | ReadResult.ok [] => true
  | ReadResult.err => true
  | _ => false

/-- Caller-invoked registry operations together with the pump's cleanup
step, for stating which operations can change the registry. -/
inductive RegistryOp where
  | opSpawn (w : SpawnWorld) (cwd : String) (command : Option String)
  | opWrite (ptyId : String) (data : String) (sys : WriteSyscalls)
  | opResize (ptyId : String) (rows cols : Nat) (resizeOk : Bool)
  | opKill (ptyId : String)
  | opPumpCleanup (ptyId : String)
deriving DecidableEq, Repr

/-- Registry effect of each operation, each taken from the corresponding
modeled function (the pump cleanup is the `remove` of line 129). -/
def applyRegistryOp (st : Registry) : RegistryOp → Registry
  | RegistryOp.opSpawn w cwd command => (spawn_pty w st cwd command).2
  | RegistryOp.opWrite ptyId data sys => (write_to_pty st ptyId data sys).2
  | RegistryOp.opResize ptyId rows cols resizeOk =>
    (resize_pty st ptyId rows cols resizeOk).2
  | RegistryOp.opKill ptyId => (kill_pty st ptyId).2
  | RegistryOp.opPumpCleanup ptyId => Registry.remove st ptyId

/-- One step of the lock-and-I/O structure of a caller-invoked operation,
for transcribing where the registry mutex is held.  `lockRegistry` and
`unlockRegistry` are the acquisition and the drop of the `sessions` mutex
guard; `lockWriter` and `unlockWriter` are those of the per-session writer
mutex; the `io` steps are the blocking syscalls. -/
inductive LockAction where
  | lockRegistry
  | unlockRegistry
  | lockWriter
  | unlockWriter
  | lookupSession (ptyId : String)
  | removeEntry (ptyId : String)
  | ioWriteAll
  | ioFlush
  | ioResize
deriving DecidableEq, Repr

/-- Lock-and-I/O transcript of `write_to_pty` on its success path: the
`sessions` guard is bound at line 143 and, being a local of the whole
function body, is dropped only at line 155, after `write_all` and `flush`;
the writer guard (line 148) is dropped just before it. -/
def write_to_pty_lockTrace (ptyId : String) : List LockAction :=
  [LockAction.lockRegistry, LockAction.lookupSession ptyId, LockAction.lockWriter,
    LockAction.ioWriteAll, LockAction.ioFlush, LockAction.unlockWriter,
    LockAction.unlockRegistry]

/-- Lock-and-I/O transcript of `resize_pty` on its success path: the
`sessions` guard is bound at line 164 and dropped at line 181, after the
`resize` syscall. -/
def resize_pty_lockTrace (ptyId : String) : List LockAction :=
  [LockAction.lockRegistry, LockAction.lookupSession ptyId, LockAction.ioResize,
    LockAction.unlockRegistry]

/-- Lock transcript of `kill_pty`: lock, remove, unlock; no blocking I/O. -/
def kill_pty_lockTrace (ptyId : String) : List LockAction :=
  [LockAction.lockRegistry, LockAction.removeEntry ptyId, LockAction.unlockRegistry]

/-- Steps that are blocking I/O syscalls. -/
def isBlockingIo : LockAction → Bool
  | LockAction.ioWriteAll => true
  | LockAction.ioFlush => true
  | LockAction.ioResize => true
  | _ => false

/-- Whether some blocking I/O step of the trace executes while the registry
lock is held; `held` says whether it is held on entry. -/
def anyIoUnderRegistryLock : List LockAction → Bool → Bool
  | [], _ => false
  | a :: rest, held =>
    (isBlockingIo a && held) ||
      anyIoUnderRegistryLock rest
        (match a with
          | LockAction.lockRegistry => true
          | LockAction.unlockRegistry => false
          | _ => held)

/-- The locking discipline claimed by the specification for one operation:
every blocking I/O step runs outside the registry lock. -/
def ioOutsideRegistryLock (tr : List LockAction) : Bool :=
  !anyIoUnderRegistryLock tr false

/-- Number of registry-lock acquisitions in a trace. -/
def countRegistryLocks : List LockAction → Nat
  | [] => 0
  | LockAction.lockRegistry :: rest => countRegistryLocks rest + 1
  | _ :: rest => countRegistryLocks rest

/-- Number of registry-lock releases in a trace. -/
def countRegistryUnlocks : List LockAction → Nat
  | [] => 0
  | LockAction.unlockRegistry :: rest => countRegistryUnlocks rest + 1
  | _ :: rest => countRegistryUnlocks rest

/-- Raw directory entry as `fs::read_dir` yields it: the file name and
whether the path is a directory (the `file_path.is_dir()` query). -/
structure RawEntry where
  name : String
  isDir : Bool
deriving DecidableEq, Repr

/-- Model of the `FileEntry` struct of `fs.rs`. -/
structure FileEntry where
  name : String
  path : String
  is_dir : Bool
  is_hidden : Bool
deriving DecidableEq, Repr

/-- The fixed noise set skipped by `read_directory` (lines 35-39). -/
def skippedName (name : String) : Bool :=
  name == "node_modules" || name == ".git" || name == "target" || name == ".DS_Store"

/-- Model of `file_name.starts_with('.')`. -/
def startsWithDot (name : String) : Bool :=
  match name.data with
  | '.' :: _ => true
  | _ => false

/-- Lowercased character sequence of a name, modeling
`name.to_lowercase()`; `Char.toLower` covers the ASCII mapping, which is
where the Rust and Lean lowercasings agree. -/
def lowerName (s : String) : List Char := s.data.map Char.toLower

/-- Lexicographic comparison of character sequences by scalar value; this is
the order `String::cmp` induces on the decoded characters (UTF-8 byte order
coincides with scalar order).  `charListLe as bs` is `cmp(as, bs) != Greater`. -/
def charListLe : List Char → List Char → Bool
  | [], _ => true
  | _ :: _, [] => false
  | a :: as, b :: bs => if a = b then charListLe as bs else decide (a < b)

/-- The sort order of `read_directory` (lines 55-61) as a boolean `le`:
directories strictly precede files, and entries of the same kind compare
case-insensitively by name.  `entryLe a b` is `comparator(a, b) != Greater`. -/
def entryLe (a b : FileEntry) : Bool :=
  match a.is_dir, b.is_dir with
  | true, false => true
  | false, true => false
  | _, _ => charListLe (lowerName a.name) (lowerName b.name)

/-- Insertion into a list sorted by `entryLe`. -/
def insertLe (a : FileEntry) : List FileEntry → List FileEntry
  | [] => [a]
  | b :: bs => if entryLe a b then a :: b :: bs else b :: insertLe a bs

/-- Model of `entries.sort_by(comparator)`: Rust's `sort_by` is a stable
sort, and a stable sort by a total preorder computes a unique output list,
so it is modeled by insertion sort, which is also stable. -/
def sortByEntryLe : List FileEntry → List FileEntry
  | [] => []
  | a :: as => insertLe a (sortByEntryLe as)

/-- Conversion of one raw entry to a `FileEntry` (lines 30-48): the path is
the directory path joined with the name, and hiddenness is a leading dot. -/
def mkFileEntry (dirPath : String) (e : RawEntry) : FileEntry :=
  ⟨e.name, dirPath ++ "/" ++ e.name, e.isDir, startsWithDot e.name⟩

/-- Model of `read_directory` (lines 13-64): existence and directory checks
are oracles (`dirExists`, `dirIsDir`), the raw listing is the input `raw`
(so the `read_dir` error branch is out of frame: the claim is about readable
directories), noise names are skipped, and the result is sorted
directories-first then case-insensitively by name. -/
def read_directory (dirExists dirIsDir : Bool) (path : String)
    (raw : List RawEntry) : Except String (List FileEntry) :=
  if !dirExists then Except.error ( "Directory does not exist: " ++ path)
  else if !dirIsDir then Except.error ( "Path is not a directory: " ++ path)
  else
    Except.ok
      (sortByEntryLe ((raw.filter (fun e => !skippedName e.name)).map (mkFileEntry path)))

/-- Splitting a character sequence at `'/'`, keeping empty pieces; `acc`
holds the current piece reversed. -/
def splitSlash : List Char → List Char → List String
  | [], acc => [String.mk acc.reverse]
  | '/' :: rest, acc => String.mk acc.reverse :: splitSlash rest []
  | c :: rest, acc => splitSlash rest (c :: acc)

/-- Model of `Path::file_name` on Unix paths: the path's components are its
slash-separated pieces with empty pieces and `"."` pieces dropped (current
directory markers and duplicate or trailing separators do not count); the
file name is the last component when it is a normal one, and `none` when
there is no component or the last one is the parent directory `".."`. -/
def pathFileName (path : String) : Option String :=
  match (splitSlash path.data []).filter (fun s => s != "" && s != ".") |>.getLast? with
  | none => none
  | some c => if c = ".." then none else some c

/-- Model of `get_file_name` (lines 96-102 of `fs.rs`): the final file-name
component when present, otherwise the whole input string. -/
def get_file_name (path : String) : String :=
  match pathFileName path with
  | some n => n
  | none => path

theorem Registry.get_cons (a : String) (b : PtySession) (rest : Registry) (k : String) :
    Registry.get ((a, b) :: rest) k = if k = a then some b else Registry.get rest k := by
  by_cases h : k = a
  · simp [Registry.get, List.lookup, h]
  · have hb : (k == a) = false := beq_eq_false_iff_ne.mpr h
    simp [Registry.get, List.lookup, hb, h]

theorem Registry.get_remove (st : Registry) (k k' : String) :
    Registry.get (Registry.remove st k) k' =
      if k' = k then none else Registry.get st k' := by
  induction st with
  | nil => by_cases h : k' = k <;> simp [Registry.remove, Registry.get, List.lookup, h]
  | cons p rest ih =>
    obtain ⟨a, b⟩ := p
    by_cases hak : a = k
    · subst hak
      by_cases hk : k' = a <;>
        simpa [Registry.remove, List.filter_cons, Registry.get_cons, hk] using ih
    · by_cases hk : k' = a
      · subst hk
        simp [Registry.remove, List.filter_cons, Registry.get_cons, bne_iff_ne, hak,
          Ne.symm hak]
      · have := ih
        simp only [Registry.remove, List.filter_cons] at *
        simp [bne_iff_ne, hak, Registry.get_cons, hk, this]

theorem Registry.remove_remove (st : Registry) (k : String) :
    Registry.remove (Registry.remove st k) k = Registry.remove st k := by
  simp [Registry.remove, List.filter_filter]

theorem Registry.remove_of_get_none (st : Registry) (k : String)
    (h : Registry.get st k = none) : Registry.remove st k = st := by
  induction st with
  | nil => rfl
  | cons p rest ih =>
    obtain ⟨a, b⟩ := p
    by_cases hk : k = a
    · subst hk
      simp [Registry.get_cons] at h
    · rw [Registry.get_cons] at h
      simp only [hk, if_false] at h
      simp [Registry.remove, List.filter_cons, bne_iff_ne, Ne.symm hk]
      simpa [Registry.remove] using ih h

theorem Registry.get_insert (st : Registry) (k k' : String) (s : PtySession) :
    Registry.get (Registry.insert st k s) k' =
      if k' = k then some s else Registry.get st k' := by
  by_cases h : k' = k <;>
    simp [Registry.insert, Registry.get_cons, Registry.get_remove, h]

theorem write_to_pty_registry_id (st : Registry) (ptyId data : String)
    (sys : WriteSyscalls) : (write_to_pty st ptyId data sys).2 = st := by
  unfold write_to_pty
  cases Registry.get st ptyId with
  | none => rfl
  | some s => cases sys.writeAllOk <;> cases sys.flushOk <;> simp

theorem resize_pty_registry_id (st : Registry) (ptyId : String) (rows cols : Nat)
    (resizeOk : Bool) : (resize_pty st ptyId rows cols resizeOk).2 = st := by
  unfold resize_pty
  cases Registry.get st ptyId with
  | none => rfl
  | some s => cases resizeOk <;> simp

theorem spawn_pty_registry_cases (w : SpawnWorld) (st : Registry) (cwd : String)
    (command : Option String) :
    (spawn_pty w st cwd command).2 = st ∨
      (spawn_pty w st cwd command).2 = Registry.insert st w.freshId w.freshSession := by
  unfold spawn_pty
  cases w.openptyOk
  · simp
  · cases resolveCommand command w.shellVar
    · simp
    · cases w.spawnCommandOk
      · simp
      · cases w.cloneReaderOk
        · simp
        · cases w.takeWriterOk <;> simp

/-- C3: whenever `spawn_pty` returns an error — PTY allocation failure,
empty command token list, child launch failure, or failure to obtain the
reader or writer handle — the registry mapping is exactly what it was
before the call. -/
theorem spawn_error_registry_unchanged (w : SpawnWorld) (st : Registry)
    (cwd : String) (command : Option String) (e : String)
    (h : (spawn_pty w st cwd command).1 = Except.error e) :
    (spawn_pty w st cwd command).2 = st := by
  unfold spawn_pty at h ⊢
  cases ho : w.openptyOk with
  | false => simp [ho]
  | true =>
    cases hrc : resolveCommand command w.shellVar with
    | error e2 => simp [ho, hrc]
    | ok cmd =>
      cases hs : w.spawnCommandOk with
      | false => simp [ho, hrc, hs]
      | true =>
        cases hr : w.cloneReaderOk with
        | false => simp [ho, hrc, hs, hr]
        | true =>
          cases hw : w.takeWriterOk with
          | false => simp [ho, hrc, hs, hr, hw]
          | true => simp [ho, hrc, hs, hr, hw] at h

/-- Witness for C3 at a concrete failing world: PTY allocation fails, so the
registry (one live session) is returned unchanged. -/
theorem spawn_error_registry_unchanged_witness :
    (spawn_pty ⟨false, true, true, true, none, "fresh", ⟨1, 1⟩⟩
        [( "live", ⟨0, 0⟩)] "/tmp" none).2 = [( "live", ⟨0, 0⟩)] :=
  spawn_error_registry_unchanged ⟨false, true, true, true, none, "fresh", ⟨1, 1⟩⟩
    [( "live", ⟨0, 0⟩)] "/tmp" none "Failed to open PTY" rfl

/-- C5: `kill` always returns success, also on an absent id; killing twice
leaves the registry exactly as killing once; and killing an absent id is a
no-op on the registry. -/
theorem kill_total_idempotent (st : Registry) (ptyId : String) :
    (kill_pty st ptyId).1 = Except.ok () ∧
    (kill_pty (kill_pty st ptyId).2 ptyId).2 = (kill_pty st ptyId).2 ∧
    (Registry.get st ptyId = none → (kill_pty st ptyId).2 = st) := by
  refine ⟨rfl, ?_, fun h => ?_⟩
  · simpa [kill_pty] using Registry.remove_remove st ptyId
  · simpa [kill_pty] using Registry.remove_of_get_none st ptyId h

/-- Witness for C5 at a concrete input: killing an id absent from the empty
registry leaves it empty (and the call succeeded by the same theorem). -/
theorem kill_total_idempotent_witness : (kill_pty [] "gone").2 = [] :=
  (kill_total_idempotent [] "gone").2.2 rfl

theorem write_msg_ne_notFound (ptyId : String) :
    ( "Failed to write to PTY" : String) ≠ "PTY session not found: " ++ ptyId := by
  intro h
  have hl := congrArg String.length h
  rw [String.length_append] at hl
  have h1 : ( "Failed to write to PTY" : String).length = 22 := rfl
  have h2 : ( "PTY session not found: " : String).length = 23 := rfl
  omega

theorem flush_msg_ne_notFound (ptyId : String) :
    ( "Failed to flush PTY" : String) ≠ "PTY session not found: " ++ ptyId := by
  intro h
  have hl := congrArg String.length h
  rw [String.length_append] at hl
  have h1 : ( "Failed to flush PTY" : String).length = 19 := rfl
  have h2 : ( "PTY session not found: " : String).length = 23 := rfl
  omega

theorem resize_msg_ne_notFound (ptyId : String) :
    ( "Failed to resize PTY" : String) ≠ "PTY session not found: " ++ ptyId := by
  intro h
  have hl := congrArg String.length h
  rw [String.length_append] at hl
  have h1 : ( "Failed to resize PTY" : String).length = 20 := rfl
  have h2 : ( "PTY session not found: " : String).length = 23 := rfl
  omega

/-- C6: `write_to_pty` and `resize_pty` return the not-found error exactly
when the id is absent at lookup time, and that error message names the
missing id (it is a fixed prefix followed by the id itself). -/
theorem write_resize_not_found_iff (st : Registry) (ptyId data : String)
    (sys : WriteSyscalls) (rows cols : Nat) (resizeOk : Bool) :
    ((write_to_pty st ptyId data sys).1 =
        Except.error ( "PTY session not found: " ++ ptyId) ↔
      Registry.get st ptyId = none) ∧
    ((resize_pty st ptyId rows cols resizeOk).1 =
        Except.error ( "PTY session not found: " ++ ptyId) ↔
      Registry.get st ptyId = none) ∧
    (∃ pre, ( "PTY session not found: " ++ ptyId : String) = pre ++ ptyId) := by
  refine ⟨?_, ?_, ⟨ "PTY session not found: ", rfl⟩⟩
  · cases hg : Registry.get st ptyId with
    | none => simp [write_to_pty, hg]
    | some s =>
      simp only [write_to_pty, hg]
      constructor
      · intro h
        cases hw : sys.writeAllOk <;> cases hf : sys.flushOk <;>
          simp [hw, hf] at h <;>
          first
            | exact absurd h (write_msg_ne_notFound ptyId)
            | exact absurd h (flush_msg_ne_notFound ptyId)
      · intro h
        simp [hg] at h
  · cases hg : Registry.get st ptyId with
    | none => simp [resize_pty, hg]
    | some s =>
      simp only [resize_pty, hg]
      constructor
      · intro h
        cases hr : resizeOk <;> simp [hr] at h
        exact absurd h (resize_msg_ne_notFound ptyId)
      · intro h
        simp [hg] at h

/-- C4: write and resize never change the registry mapping, whether they
succeed or fail; and the only operations (among spawn, write, resize, kill,
pump cleanup) whose application can turn an id from present to absent are
the kill of that id and the pump cleanup of that id.  Since removal of an
absent id is a no-op, removal of a given id can take effect at most once. -/
theorem registry_removal_only_kill_or_pump (st : Registry) (op : RegistryOp)
    (ptyId : String) :
    ((∀ data sys, (write_to_pty st ptyId data sys).2 = st) ∧
      ∀ rows cols resizeOk, (resize_pty st ptyId rows cols resizeOk).2 = st) ∧
    (Registry.get st ptyId ≠ none →
      Registry.get (applyRegistryOp st op) ptyId = none →
      op = RegistryOp.opKill ptyId ∨ op = RegistryOp.opPumpCleanup ptyId) := by
  refine ⟨⟨fun data sys => write_to_pty_registry_id st ptyId data sys,
    fun rows cols resizeOk => resize_pty_registry_id st ptyId rows cols resizeOk⟩, ?_⟩
  intro hpres habs
  cases op with
  | opSpawn w cwd command =>
    exfalso
    simp only [applyRegistryOp] at habs
    rcases spawn_pty_registry_cases w st cwd command with hc | hc
    · rw [hc] at habs
      exact hpres habs
    · rw [hc, Registry.get_insert] at habs
      by_cases hid : ptyId = w.freshId
      · simp [hid] at habs
      · rw [if_neg hid] at habs
        exact hpres habs
  | opWrite id2 data sys =>
    exfalso
    simp only [applyRegistryOp, write_to_pty_registry_id] at habs
    exact hpres habs
  | opResize id2 rows cols resizeOk =>
    exfalso
    simp only [applyRegistryOp, resize_pty_registry_id] at habs
    exact hpres habs
  | opKill id2 =>
    left
    simp only [applyRegistryOp, kill_pty, Registry.get_remove] at habs
    by_cases hid : ptyId = id2
    · rw [hid]
    · rw [if_neg hid] at habs
      exact absurd habs hpres
  | opPumpCleanup id2 =>
    right
    simp only [applyRegistryOp, Registry.get_remove] at habs
    by_cases hid : ptyId = id2
    · rw [hid]
    · rw [if_neg hid] at habs
      exact absurd habs hpres

/-- Witness for C4 at a concrete input: killing the one live id is one of
the two removal triggers. -/
theorem registry_removal_only_kill_or_pump_witness :
    RegistryOp.opKill "live" = RegistryOp.opKill "live" ∨
      RegistryOp.opKill "live" = RegistryOp.opPumpCleanup "live" :=
  (registry_removal_only_kill_or_pump [( "live", ⟨0, 0⟩)]
    (RegistryOp.opKill "live") "live").2 (by decide) (by decide)

/-- C1 counterexample: in `write_to_pty` the `sessions` mutex guard taken at
line 143 lives to the end of the function, so the blocking `write_all` and
`flush` execute while the registry lock is held — the claimed discipline
(all blocking I/O outside the registry lock) is false for the write
operation at this concrete trace. -/
theorem write_io_outside_lock_refuted :
    ioOutsideRegistryLock (write_to_pty_lockTrace "session") = false := rfl

/-- C1 amended: every caller-invoked registry operation (write, resize,
kill) enters exactly one registry critical section, but the blocking I/O of
write (`write_all`, `flush`) and of resize (the geometry change) executes
while the registry lock is held, because the lookup guard lives to the end
of the function; only kill, which performs no blocking I/O, trivially does
no I/O under the lock. -/
theorem single_critical_section_io_under_lock (ptyId : String) :
    (countRegistryLocks (write_to_pty_lockTrace ptyId) = 1 ∧
      countRegistryUnlocks (write_to_pty_lockTrace ptyId) = 1) ∧
    (countRegistryLocks (resize_pty_lockTrace ptyId) = 1 ∧
      countRegistryUnlocks (resize_pty_lockTrace ptyId) = 1) ∧
    (countRegistryLocks (kill_pty_lockTrace ptyId) = 1 ∧
      countRegistryUnlocks (kill_pty_lockTrace ptyId) = 1) ∧
    anyIoUnderRegistryLock (write_to_pty_lockTrace ptyId) false = true ∧
    anyIoUnderRegistryLock (resize_pty_lockTrace ptyId) false = true ∧
    ioOutsideRegistryLock (kill_pty_lockTrace ptyId) = true :=
  ⟨⟨rfl, rfl⟩, ⟨rfl, rfl⟩, ⟨rfl, rfl⟩, rfl, rfl, rfl⟩

theorem pumpLoop_shape (ptyId : String) (reads : List ReadResult)
    (tr : List PumpAction) (h : pumpLoop ptyId reads = some tr) :
    ∃ outs,
      tr = outs ++ [PumpAction.removeSession ptyId, PumpAction.emitExit ptyId] ∧
      ∀ a ∈ outs, ∃ d, a = PumpAction.emitOutput ptyId d := by
  induction reads generalizing tr with
  | nil => simp [pumpLoop] at h
  | cons r rest ih =>
    cases r with
    | err =>
      simp only [pumpLoop, Option.some.injEq] at h
      subst h
      exact ⟨[], rfl, by simp⟩
    | ok bytes =>
      cases bytes with
      | nil =>
        simp only [pumpLoop, Option.some.injEq] at h
        subst h
        exact ⟨[], rfl, by simp⟩
      | cons b bs =>
        simp only [pumpLoop] at h
        rcases Option.map_eq_some'.mp h with ⟨tr2, htr2, heq⟩
        rcases ih tr2 htr2 with ⟨outs, houts, hall⟩
        refine ⟨PumpAction.emitOutput ptyId (from_utf8_lossy (b :: bs)) :: outs, ?_, ?_⟩
        · rw [← heq, houts]
          rfl
        · intro a ha
          rcases List.mem_cons.mp ha with h1 | h1
          · exact ⟨_, h1⟩
          · exact hall a h1

theorem pumpLoop_isSome_iff (ptyId : String) (reads : List ReadResult) :
    (pumpLoop ptyId reads).isSome = true ↔
      ∃ r ∈ reads, isTerminalRead r = true := by
  induction reads with
  | nil => simp [pumpLoop]
  | cons r rest ih =>
    cases r with
    | err => simp [pumpLoop, isTerminalRead]
    | ok bytes =>
      cases bytes with
      | nil => simp [pumpLoop, isTerminalRead]
      | cons b bs => simp [pumpLoop, isTerminalRead, ih]

theorem countExit_append (l1 l2 : List PumpAction) :
    countExit (l1 ++ l2) = countExit l1 + countExit l2 := by
  induction l1 with
  | nil => simp [countExit]
  | cons a rest ih =>
    cases a <;> simp [countExit, ih] <;> omega

theorem countExit_outputs (ptyId : String) (outs : List PumpAction)
    (h : ∀ a ∈ outs, ∃ d, a = PumpAction.emitOutput ptyId d) :
    countExit outs = 0 := by
  induction outs with
  | nil => rfl
  | cons a rest ih =>
    rcases h a (by simp) with ⟨d, hd⟩
    subst hd
    simpa [countExit] using ih (fun a ha => h a (by simp [ha]))

theorem applyPumpTrace_shape (st : Registry) (ptyId : String)
    (outs : List PumpAction)
    (h : ∀ a ∈ outs, ∃ d, a = PumpAction.emitOutput ptyId d) :
    applyPumpTrace st
        (outs ++ [PumpAction.removeSession ptyId, PumpAction.emitExit ptyId]) =
      Registry.remove st ptyId := by
  induction outs with
  | nil => rfl
  | cons a rest ih =>
    rcases h a (by simp) with ⟨d, hd⟩
    subst hd
    simpa [applyPumpTrace, applyPumpAction] using
      ih (fun a ha => h a (by simp [ha]))

/-- C2: whenever the pump thread terminates (which happens exactly when its
read stream contains a zero-length read or a read error), its action trace
is some output emissions followed by the removal of the session id from the
registry and then exactly one exit emission carrying that id — so the exit
event is unique, comes last, and follows the removal, whose registry effect
is precisely `remove`. -/
theorem pump_exit_unique (ptyId : String) (reads : List ReadResult) :
    (∀ tr, pumpLoop ptyId reads = some tr →
      (∃ outs,
        tr = outs ++ [PumpAction.removeSession ptyId, PumpAction.emitExit ptyId] ∧
        ∀ a ∈ outs, ∃ d, a = PumpAction.emitOutput ptyId d) ∧
      countExit tr = 1 ∧
      ∀ st, applyPumpTrace st tr = Registry.remove st ptyId) ∧
    ((pumpLoop ptyId reads).isSome = true ↔
      ∃ r ∈ reads, isTerminalRead r = true) := by
  refine ⟨fun tr h => ?_, pumpLoop_isSome_iff ptyId reads⟩
  rcases pumpLoop_shape ptyId reads tr h with ⟨outs, htr, hall⟩
  refine ⟨⟨outs, htr, hall⟩, ?_, fun st => ?_⟩
  · rw [htr, countExit_append, countExit_outputs ptyId outs hall]
    rfl
  · rw [htr]
    exact applyPumpTrace_shape st ptyId outs hall

/-- Witness for C2 at a concrete run: one chunk then a read error yields a
trace with exactly one exit emission. -/
theorem pump_exit_unique_witness :
    countExit [PumpAction.emitOutput "s" "h", PumpAction.removeSession "s",
      PumpAction.emitExit "s"] = 1 :=
  ((pump_exit_unique "s" [ReadResult.ok [ 104], ReadResult.err]).1
    [PumpAction.emitOutput "s" "h", PumpAction.removeSession "s",
      PumpAction.emitExit "s"] (by decide)).2.1

/-- C8: a non-empty read makes the pump emit exactly one output event
carrying the session id and the lossily decoded chunk, then continue with
the rest of the stream (termination status unchanged); and the decoding is
the total best-effort lossy one — exhibited on malformed inputs: a lone
invalid byte and an invalid three-byte sequence decode to replacement
characters rather than failing, and a valid four-byte sequence decodes to
its scalar value. -/
theorem pump_output_event_decoding (ptyId : String) (b : Nat) (bs : List Nat)
    (rest : List ReadResult) :
    (∀ tr, pumpLoop ptyId rest = some tr →
      pumpLoop ptyId (ReadResult.ok (b :: bs) :: rest) =
        some (PumpAction.emitOutput ptyId (from_utf8_lossy (b :: bs)) :: tr)) ∧
    (pumpLoop ptyId (ReadResult.ok (b :: bs) :: rest) = none ↔
      pumpLoop ptyId rest = none) ∧
    utf8DecodeLossy [ 0xFF] = [replacementChar] ∧
    utf8DecodeLossy [ 0xE2, 0x28, 0xA1] = [replacementChar, '(', replacementChar] ∧
    from_utf8_lossy [ 0xF0, 0x9F, 0x92, 0x96] = String.mk [Char.ofNat 0x1F496] := by
  refine ⟨fun tr h => ?_, ?_, by decide, by decide, by decide⟩
  · simp only [pumpLoop, h, Option.map_some']
  · simp only [pumpLoop, Option.map_eq_none']

/-- Witness for C8 at a concrete run: the chunk `[104, 105]` decodes to
`"hi"` and is emitted as one output event before the exit sequence. -/
theorem pump_output_event_decoding_witness :
    pumpLoop "w" [ReadResult.ok [ 104, 105], ReadResult.ok []] =
      some [PumpAction.emitOutput "w" "hi", PumpAction.removeSession "w",
        PumpAction.emitExit "w"] := by
  have h := (pump_output_event_decoding "w" 104 [ 105] [ReadResult.ok []]).1
    [PumpAction.removeSession "w", PumpAction.emitExit "w"] (by decide)
  have hd : from_utf8_lossy [ 104, 105] = "hi" := by decide
  rw [hd] at h
  exact h

theorem splitWhitespaceAux_nil_iff (l : List Char) : ∀ acc,
    (splitWhitespaceAux l acc = [] ↔ acc = [] ∧ l.all Char.isWhitespace = true) := by
  induction l with
  | nil => intro acc; cases acc <;> simp [splitWhitespaceAux]
  | cons c rest ih =>
    intro acc
    by_cases hw : c.isWhitespace = true
    · cases acc with
      | nil => simp [splitWhitespaceAux, hw, ih]
      | cons a as => simp [splitWhitespaceAux, hw]
    · cases acc with
      | nil => simp [splitWhitespaceAux, hw, ih]
      | cons a as => simp [splitWhitespaceAux, hw, ih]

theorem splitWhitespaceAux_tokens (l : List Char) : ∀ acc,
    (∀ c ∈ acc, c.isWhitespace = false) →
    ∀ t ∈ splitWhitespaceAux l acc,
      t.data ≠ [] ∧ ∀ c ∈ t.data, c.isWhitespace = false := by
  induction l with
  | nil =>
    intro acc hacc t ht
    cases acc with
    | nil => simp [splitWhitespaceAux] at ht
    | cons a as =>
      simp only [splitWhitespaceAux, List.mem_singleton] at ht
      subst ht
      refine ⟨by simp [String.mk], fun c hc => hacc c ?_⟩
      have hc2 : c ∈ (a :: as).reverse := hc
      exact List.mem_reverse.mp hc2
  | cons c rest ih =>
    intro acc hacc t ht
    by_cases hw : c.isWhitespace = true
    · cases acc with
      | nil =>
        simp only [splitWhitespaceAux, hw, if_true] at ht
        exact ih [] (by simp) t ht
      | cons a as =>
        simp only [splitWhitespaceAux, hw, if_true, List.mem_cons] at ht
        rcases ht with h1 | h1
        · subst h1
          refine ⟨by simp [String.mk], fun x hx => hacc x ?_⟩
          have hx2 : x ∈ (a :: as).reverse := hx
          exact List.mem_reverse.mp hx2
        · exact ih [] (by simp) t h1
    · have hacc2 : ∀ x ∈ c :: acc, x.isWhitespace = false := by
        intro x hx
        rcases List.mem_cons.mp hx with h1 | h1
        · subst h1
          simpa using hw
        · exact hacc x h1
      simp only [splitWhitespaceAux, hw, if_false] at ht
      exact ih (c :: acc) hacc2 t ht

/-- C7: command resolution splits the given command string into
whitespace-delimited tokens (each token non-empty and whitespace-free); the
resolution fails with the input error `"Empty command"` exactly when the
string is empty or all whitespace; otherwise the first token becomes the
program and the remaining tokens its arguments; with no command given, the
program is the `SHELL` variable when set and the fixed path `"/bin/zsh"`
otherwise, with no arguments. -/
theorem command_resolution_spec (cmdStr : String) (shellVar : Option String) :
    (resolveCommand (some cmdStr) shellVar = Except.error "Empty command" ↔
      cmdStr.data.all Char.isWhitespace = true) ∧
    (∀ p rest, split_whitespace cmdStr = p :: rest →
      resolveCommand (some cmdStr) shellVar = Except.ok ⟨p, rest⟩) ∧
    (∀ t ∈ split_whitespace cmdStr,
      t.data ≠ [] ∧ ∀ c ∈ t.data, c.isWhitespace = false) ∧
    (∀ sh, resolveCommand none (some sh) = Except.ok ⟨sh, []⟩) ∧
    resolveCommand none none = Except.ok ⟨ "/bin/zsh", []⟩ := by
  refine ⟨?_, ?_, ?_, fun sh => rfl, rfl⟩
  · constructor
    · intro h
      cases hs : split_whitespace cmdStr with
      | nil => exact ((splitWhitespaceAux_nil_iff cmdStr.data []).mp hs).2
      | cons p rest =>
        rw [show resolveCommand (some cmdStr) shellVar =
          (match split_whitespace cmdStr with
            | [] => Except.error "Empty command"
            | p :: rest => Except.ok ⟨p, rest⟩) from rfl, hs] at h
        cases h
    · intro h
      have hs : split_whitespace cmdStr = [] :=
        (splitWhitespaceAux_nil_iff cmdStr.data []).mpr ⟨rfl, h⟩
      rw [show resolveCommand (some cmdStr) shellVar =
        (match split_whitespace cmdStr with
          | [] => Except.error "Empty command"
          | p :: rest => Except.ok ⟨p, rest⟩) from rfl, hs]
  · intro p rest h
    rw [show resolveCommand (some cmdStr) shellVar =
      (match split_whitespace cmdStr with
        | [] => Except.error "Empty command"
        | p :: rest => Except.ok ⟨p, rest⟩) from rfl, h]
  · exact splitWhitespaceAux_tokens cmdStr.data [] (by simp)

/-- Witness for C7 at a concrete command line: `"echo ready"` resolves to
the program `"echo"` with the single argument `"ready"`. -/
theorem command_resolution_spec_witness :
    resolveCommand (some "echo ready") none = Except.ok ⟨ "echo", [ "ready"]⟩ :=
  (command_resolution_spec "echo ready" none).2.1 "echo" [ "ready"] (by decide)

theorem charListLe_trans (as : List Char) : ∀ bs cs,
    charListLe as bs = true → charListLe bs cs = true → charListLe as cs = true := by
  induction as with
  | nil => intro bs cs _ _; rfl
  | cons a as ih =>
    intro bs cs h1 h2
    cases bs with
    | nil => simp [charListLe] at h1
    | cons b bs =>
      cases cs with
      | nil => simp [charListLe] at h2
      | cons c cs =>
        by_cases hab : a = b
        · subst hab
          by_cases hac : a = c
          · subst hac
            simp only [charListLe, if_pos rfl] at h1 h2 ⊢
            exact ih bs cs h1 h2
          · simp only [charListLe, if_neg hac] at h2 ⊢
            exact h2
        · by_cases hbc : b = c
          · subst hbc
            simp only [charListLe, if_neg hab] at h1 ⊢
            exact h1
          · simp only [charListLe, if_neg hab] at h1
            simp only [charListLe, if_neg hbc] at h2
            have hac : a < c := lt_trans (of_decide_eq_true h1) (of_decide_eq_true h2)
            simp only [charListLe, if_neg (ne_of_lt hac)]
            exact decide_eq_true hac

theorem charListLe_total (as : List Char) : ∀ bs,
    charListLe as bs = true ∨ charListLe bs as = true := by
  induction as with
  | nil => intro bs; left; rfl
  | cons a as ih =>
    intro bs
    cases bs with
    | nil => right; rfl
    | cons b bs =>
      by_cases hab : a = b
      · subst hab
        simp only [charListLe, if_pos rfl]
        exact ih bs
      · rcases lt_or_gt_of_ne hab with h | h
        · left
          simp only [charListLe, if_neg hab]
          exact decide_eq_true h
        · right
          simp only [charListLe, if_neg (Ne.symm hab)]
          exact decide_eq_true h

theorem entryLe_trans (a b c : FileEntry) (h1 : entryLe a b = true)
    (h2 : entryLe b c = true) : entryLe a c = true := by
  unfold entryLe at h1 h2 ⊢
  cases ha : a.is_dir <;> cases hb : b.is_dir <;> cases hc : c.is_dir <;>
    simp only [ha, hb, hc] at h1 h2 ⊢ <;>
    first
      | rfl
      | simp at h1
      | simp at h2
      | exact charListLe_trans _ _ _ h1 h2

theorem entryLe_total (a b : FileEntry) :
    entryLe a b = true ∨ entryLe b a = true := by
  unfold entryLe
  cases ha : a.is_dir <;> cases hb : b.is_dir <;> simp only [ha, hb] <;>
    first
      | exact charListLe_total (lowerName a.name) (lowerName b.name)
      | (left; trivial)
      | (right; trivial)

theorem mem_insertLe (a x : FileEntry) (l : List FileEntry) :
    x ∈ insertLe a l ↔ x = a ∨ x ∈ l := by
  induction l with
  | nil => simp [insertLe]
  | cons b bs ih =>
    rw [insertLe]
    by_cases h : entryLe a b = true
    · rw [if_pos h]
      simp only [List.mem_cons]
    · rw [if_neg h]
      simp only [List.mem_cons, ih]
      tauto

theorem pairwise_insertLe (a : FileEntry) (l : List FileEntry)
    (h : List.Pairwise (fun x y => entryLe x y = true) l) :
    List.Pairwise (fun x y => entryLe x y = true) (insertLe a l) := by
  induction l with
  | nil => simp [insertLe]
  | cons b bs ih =>
    rcases List.pairwise_cons.mp h with ⟨hb, hbs⟩
    by_cases hab : entryLe a b = true
    · rw [insertLe, if_pos hab]
      refine List.pairwise_cons.mpr ⟨?_, h⟩
      intro y hy
      rcases List.mem_cons.mp hy with h1 | h1
      · subst h1; exact hab
      · exact entryLe_trans a b y hab (hb y h1)
    · rw [insertLe, if_neg hab]
      refine List.pairwise_cons.mpr ⟨?_, ih hbs⟩
      intro y hy
      rcases (mem_insertLe a y bs).mp hy with h1 | h1
      · rw [h1]
        rcases entryLe_total a b with h2 | h2
        · exact absurd h2 hab
        · exact h2
      · exact hb y h1

theorem pairwise_sortByEntryLe (l : List FileEntry) :
    List.Pairwise (fun x y => entryLe x y = true) (sortByEntryLe l) := by
  induction l with
  | nil => simp [sortByEntryLe]
  | cons a as ih => exact pairwise_insertLe a (sortByEntryLe as) ih

theorem mem_sortByEntryLe (x : FileEntry) (l : List FileEntry) :
    x ∈ sortByEntryLe l ↔ x ∈ l := by
  induction l with
  | nil => simp [sortByEntryLe]
  | cons a as ih =>
    rw [sortByEntryLe, mem_insertLe, ih, List.mem_cons]

/-- C9: on a readable directory, the listing is exactly the raw entries
outside the fixed noise set (`node_modules`, `.git`, `target`,
`.DS_Store`), each carrying name, joined path, directory flag, and hidden
flag; and the result is sorted by the order that puts every directory
before every non-directory and compares entries of the same kind
case-insensitively by name (`List.Pairwise entryLe`). -/
theorem read_directory_sorted_filtered (path : String) (raw : List RawEntry)
    (out : List FileEntry)
    (h : read_directory true true path raw = Except.ok out) :
    List.Pairwise (fun x y => entryLe x y = true) out ∧
    ∀ e, e ∈ out ↔ ∃ r ∈ raw, skippedName r.name = false ∧ e = mkFileEntry path r := by
  have h2 : Except.ok (sortByEntryLe
      ((raw.filter (fun e => !skippedName e.name)).map (mkFileEntry path))) =
      (Except.ok out : Except String (List FileEntry)) := h
  cases h2
  refine ⟨pairwise_sortByEntryLe _, fun e => ?_⟩
  rw [mem_sortByEntryLe]
  simp only [List.mem_map, List.mem_filter, Bool.not_eq_true']
  constructor
  · rintro ⟨r, ⟨hr, hskip⟩, heq⟩
    exact ⟨r, hr, hskip, heq.symm⟩
  · rintro ⟨r, hr, hskip, heq⟩
    exact ⟨r, ⟨hr, hskip⟩, heq.symm⟩

/-- Witness for C9 at a concrete listing: with one file, one directory and
one noise entry, the noise entry is dropped and the directory sorts first;
the resulting concrete list is sorted by `entryLe`. -/
theorem read_directory_sorted_filtered_witness :
    List.Pairwise (fun x y => entryLe x y = true)
      [(⟨ "A", "/p/A", true, false⟩ : FileEntry),
        ⟨ "b.txt", "/p/b.txt", false, false⟩] :=
  (read_directory_sorted_filtered "/p"
    [⟨ "b.txt", false⟩, ⟨ "A", true⟩, ⟨ ".git", true⟩]
    [⟨ "A", "/p/A", true, false⟩, ⟨ "b.txt", "/p/b.txt", false, false⟩]
    (by rfl)).1

/-- C10: `get_file_name` is total (it is a plain function to `String`):
when the path has a final file-name component, that component is returned,
and otherwise — no component at all, or a path ending in the
parent-directory component — the entire input string is returned unchanged;
exhibited on a root path, a parent-ending path, and ordinary paths. -/
theorem get_file_name_total_spec (path : String) :
    ((∀ n, pathFileName path = some n → get_file_name path = n) ∧
      (pathFileName path = none → get_file_name path = path)) ∧
    get_file_name "/" = "/" ∧
    get_file_name "foo/.." = "foo/.." ∧
    get_file_name "/usr/bin/ls" = "ls" ∧
    get_file_name "a/b/" = "b" := by
  refine ⟨⟨fun n h => ?_, fun h => ?_⟩, by decide, by decide, by decide, by decide⟩
  · simp [get_file_name, h]
  · simp [get_file_name, h]

/-- Witness for C10 at concrete paths: a path with a final component
returns it; the root path comes back unchanged. -/
theorem get_file_name_total_spec_witness :
    get_file_name "/etc/fstab" = "fstab" ∧ get_file_name ".." = ".." :=
  ⟨((get_file_name_total_spec "/etc/fstab").1).1 "fstab" (by decide),
    ((get_file_name_total_spec "..").1).2 (by decide)⟩
